import Mathlib

/-!
Verification development for the component graph-wiring engine of the
yarl/rlgraph repository (file `yarl/components/component.py`).

The Python class `Component` is shallowly embedded in two views that
together cover all functions under scrutiny:

* `Comp` — the "flat" view of a single component: its three socket
  collections, variable registry, graph-function records and the
  `input_complete` flag.  The functions `add_socket`, `add_graph_fn`,
  `get_socket`/`get_socket_by_name`, `check_input_completeness`,
  `get_variable` (setter path) and `_connect_disconnect` act on this view.
* `TreeComp` — the hierarchical view: scope, name, `global_scope`,
  parent link and the ordered sub-component collection.  The functions
  `__init__` (scope assertion), `add_component`, `propagate_scope` act
  on this view.

Python exceptions / failed assertions are modelled with `Except YErr`.
Python dicts keyed by strings are modelled with association lists
(`rinsert` mirrors dict assignment: overwrite in place, else append;
this matches insertion-ordered Python dicts).
-/

namespace RLGraph

/-- Errors raised by the embedded code.  `assertionFailure` models a failed
Python `assert`, the others model `YARLError` / `KeyError` raises. -/
inductive YErr where
  | duplicateSubComponentName (n : String)
  | alreadyAttached (n : String)
  | cannotInferSocketType (n : String)
  | duplicateSocket (sockName compName : String)
  | socketNotFound (n : String)
  | assertionFailure (msg : String)
  | invalidSocketSpec
  | duplicateVariableKey (k : String)
  | keyError (k : String)
  | sameComponentSockets
  deriving DecidableEq, Repr

/-- Connection targets recorded in a Socket's `incoming_connections` /
`outgoing_connections` lists.  Modelled from the spec: a socket "holds zero
or more connections: edges to other sockets, to a concrete constant value,
or to an external space descriptor" (the `Socket` class itself lives in
`socket_and_graph_fn.py`, which is not part of the sources under study).
Sockets are referenced by (owning component id, socket name); spaces and
constant values by an opaque numeric id; graph functions by method name. -/
inductive Target where
  | space (id : Nat)
  | constOp (v : Nat)
  | sock (compId : Nat) (name : String)
  | graphFn (method : String)
  deriving DecidableEq, Repr

/-- A socket.  Modelled from the spec: "a typed port (input or output)
belonging to a component; carries zero or more connections and, once
resolved, a concrete value-space descriptor".  `type_` is the Python
string field holding "in" or "out"; `component` is the numeric identity
of the owning component (standing in for the Python back-pointer
`self.component`, used by identity comparisons). -/
structure Socket where
  name : String
  type_ : String
  component : Nat
  incoming : List Target
  outgoing : List Target
  space : Option Nat
  deriving DecidableEq, Repr

/-- A registered graph function record.  Modelled from the spec: an
operation binding is "a tuple (ordered input sockets, ordered output
sockets, transformation handle, structural flags)" (`GraphFunction` lives
in `socket_and_graph_fn.py`, outside the sources under study).  Sockets
are recorded by name. -/
structure GraphFn where
  method : String
  inputSocketNames : List String
  outputSocketNames : List String
  flatten_ops : Bool
  split_ops : Bool
  add_auto_key_as_first_param : Bool
  unflatten_ops : Bool
  deriving DecidableEq, Repr

/-- The flat view of one `Component` object: exactly the fields of
`Component.__init__` that the functions under study read or write
(`input_sockets`, `output_sockets`, `internal_sockets`, `graph_fns`,
`no_input_entry_points`, `input_complete`, `variables`, the four
graph-fn default flags, `global_scope`, `name`).  `id` models Python
object identity.  The field `varRegistry` models `self.variables`
(`variables` is not a usable identifier in Lean 4). -/
structure Comp where
  id : Nat
  name : String
  global_scope : String
  flatten_ops : Bool
  split_ops : Bool
  add_auto_key_as_first_param : Bool
  unflatten_ops : Bool
  input_sockets : List Socket
  output_sockets : List Socket
  internal_sockets : List Socket
  input_complete : Bool
  graph_fns : List GraphFn
  no_input_entry_points : List GraphFn
  varRegistry : List (String × Nat)
  deriving DecidableEq, Repr

/-- ASCII model of Python's regex class `\w` (word character).  Note:
under Python 3 `\w` additionally matches non-ASCII word characters; all
strings appearing in this development are ASCII, where the two agree. -/
def isPyWordChar (c : Char) : Bool :=
  c.isAlphanum || c = '_'

/-- ASCII model of Python's regex class `[\d_]`. -/
def isDigitOrUnderscore (c : Char) : Bool :=
  c.isDigit || c = '_'

/-- Whether position `i` of `s` holds a word character (out of range
counts as a non-word character, as in Python's `\b` semantics). -/
def wordAt (s : List Char) (i : Nat) : Bool :=
  match s.get? i with
  | some c => isPyWordChar c
  | none => false

/-- Python regex `\b` (word boundary) at position `i` of `s`: the
characters on the two sides of the position differ in word-ness. -/
def boundaryAt (s : List Char) (i : Nat) : Bool :=
  match i with
  | 0 => wordAt s 0
  | j + 1 => wordAt s j != wordAt s (j + 1)

/-- Whether the literal `lit` occurs in `s` starting at position `i`. -/
def litAt (s : List Char) (i : Nat) (lit : List Char) : Bool :=
  decide ((s.drop i).take lit.length = lit)

/-- The trailing context `([\d_]|\b)` of the socket-name regex, at
position `i`. -/
def trailAt (s : List Char) (i : Nat) : Bool :=
  (match s.get? i with
   | some c => isDigitOrUnderscore c
   | none => false) || boundaryAt s i

/-- Matching `(in|out)put([\d_]|\b)` of the socket-name regex at
position `i`; returns the captured group `in`/`out` on success. -/
def payloadAt (s : List Char) (i : Nat) : Option String :=
  if litAt s i ['i', 'n', 'p', 'u', 't'] && trailAt s (i + 5) then some "in"
  else if litAt s i ['o', 'u', 't', 'p', 'u', 't'] && trailAt s (i + 6) then some "out"
  else none

/-- One anchored attempt of the regex `([\d_]|\b)(in|out)put([\d_]|\b)`
at position `i`: first alternative `[\d_]` (consuming one character),
then alternative `\b` (consuming nothing), as Python's backtracking
does. -/
def tryMatchAt (s : List Char) (i : Nat) : Option String :=
  match
    (match s.get? i with
     | some c => if isDigitOrUnderscore c then payloadAt s (i + 1) else none
     | none => none)
  with
  | some r => some r
  | none => if boundaryAt s i then payloadAt s i else none

/-- The scan of `re.search`: try each start position from `i` on,
`count` positions in total, and return the first success. -/
def searchAux (s : List Char) : Nat → Nat → Option String
  | 0, _ => none
  | count + 1, i =>
    match tryMatchAt s i with
    | some r => some r
    | none => searchAux s count (i + 1)

/-- `re.search(r'([\d_]|\b)(in|out)put([\d_]|\b)', name)` followed by
`mo.group(2)`: the socket-direction inference of `Component.add_socket`
(component.py lines 381-385). -/
def inferSocketType (name : String) : Option String :=
  searchAux name.data (name.data.length + 1) 0

/-- All socket names already present in the component, in the order
`input_sockets + output_sockets + internal_sockets` (component.py
line 379). -/
def allSocketNames (c : Comp) : List String :=
  (c.input_sockets ++ c.output_sockets ++ c.internal_sockets).map Socket.name

/-- All socket objects of a component, in the same collection order. -/
def allSockets (c : Comp) : List Socket :=
  c.input_sockets ++ c.output_sockets ++ c.internal_sockets

/-- The socket object built by `add_socket` (component.py lines
392-404): `Socket(name=name, component=self, type_=type_)`, and when a
constant `value` is given, `sock.connect_from(SingleDataOp(
constant_value=value))` recorded as its incoming connection. -/
def newSocket (c : Comp) (name : String) (value : Option Nat)
    (t : String) : Socket :=
  { name := name, type_ := t, component := c.id,
    incoming :=
      match value with
      | some v => [Target.constOp v]
      | none => [],
    outgoing := [], space := none }

/-- `Component.add_socket(name, value, type=type?, internal=internal)`
(component.py lines 357-404).  Mirrors the source order: collect all
existing names, infer the type from the name when not given (raising
`YARLError` when inference fails), raise on a duplicate name, then
append the new socket to the collection selected by `internal` and the
type. -/
def addSocket (c : Comp) (name : String) (value : Option Nat)
    (type? : Option String) (internal : Bool) : Except YErr Comp :=
  let allNames := allSocketNames c
  let inferred : Option String :=
    match type? with
    | some t => some t
    | none => inferSocketType name
  match inferred with
  | none => .error (.cannotInferSocketType name)
  | some t =>
    if name ∈ allNames then .error (.duplicateSocket name c.name)
    else
      let sock := newSocket c name value t
      if internal then
        .ok { c with internal_sockets := c.internal_sockets ++ [sock] }
      else if t = "in" then
        .ok { c with input_sockets := c.input_sockets ++ [sock] }
      else
        .ok { c with output_sockets := c.output_sockets ++ [sock] }

/-- `Component.check_input_completeness` (component.py lines 987-998):
if the flag is not yet set, start from `True` and clear it again on any
in-socket whose `space` is still `None`. -/
def checkInputCompleteness (c : Comp) : Comp :=
  if !c.input_complete then
    { c with input_complete :=
        (c.input_sockets.foldl
          (fun acc s => if s.space.isNone then false else acc) true) }
  else c

/-- A variable registry: model of the Python dict `self.variables`
(fully-scoped name → opaque variable handle, here a `Nat`). -/
abbrev Registry := List (String × Nat)

/-- Dict lookup on a registry. -/
def rlookup : Registry → String → Option Nat
  | [], _ => none
  | (k', v') :: rest, k => if k' = k then some v' else rlookup rest k

/-- Dict assignment `d[k] = v` on an insertion-ordered dict: overwrite
in place when the key exists, else append. -/
def rinsert : Registry → String → Nat → Registry
  | [], k, v => [(k, v)]
  | (k', v') :: rest, k, v =>
    if k' = k then (k, v) :: rest else (k', v') :: rinsert rest k v

/-- The fully-scoped registry key of `Component.get_variable`
(component.py line 270):
`((self.global_scope + "/") if self.global_scope else "") + name`. -/
def scopedVarKey (globalScope name : String) : String :=
  (if globalScope ≠ "" then globalScope ++ "/" else "") ++ name

/-- The setter path of `Component.get_variable` (component.py lines
238-273), after the backend has produced the variable handle `var`: the
handle is stored in this component's own registry under the fully-scoped
key.  Nothing else is touched — in particular no parent registry; that
happens later, in `when_input_complete` → `propagate_variables`. -/
def getVariableSetter (c : Comp) (name : String) (var : Nat) : Comp :=
  let key := scopedVarKey c.global_scope name
  { c with varRegistry := rinsert c.varRegistry key var }

/-- A component's registry together with the registries of its ancestor
chain (nearest parent first).  `Component.get_variable` has access to
the whole chain through `self.parent_component`; carrying the chain here
makes visible which part of the state the setter touches. -/
structure VarWorld where
  self : Comp
  ancestorRegistries : List Registry
  deriving DecidableEq, Repr

/-- `Component.get_variable` in setter mode, viewed on the whole
parent chain: the source (component.py lines 269-271) assigns only
`self.variables[key]`; the ancestor registries are returned unchanged
and no check against them is performed. -/
def worldGetVariable (w : VarWorld) (name : String) (var : Nat) : VarWorld :=
  { w with self := getVariableSetter w.self name var }

/-- The inner loop of `Component.propagate_variables` (component.py
lines 644-648): for each key, assert that the parent registry does not
already hold it (`assert key not in self.parent_component.variables`),
then copy the value from `selfVars` (`self.variables[key]`; a missing
key would be a Python `KeyError`). -/
def insertKeys (keys : List String) (selfVars par : Registry) :
    Except YErr Registry :=
  match keys with
  | [] => .ok par
  | k :: rest =>
    if (rlookup par k).isSome then .error (.duplicateVariableKey k)
    else
      match rlookup selfVars k with
      | some v => insertKeys rest selfVars (rinsert par k v)
      | none => .error (.keyError k)

/-- `Component.propagate_variables(keys)` (component.py lines 635-651),
with the ancestor chain made explicit (nearest parent first): if there
is no parent, return; otherwise copy all `keys` into the parent's
registry (asserting each key absent there), then recurse up the chain —
the recursive call runs with the parent as `self`, so it reads the
values from the parent's just-updated registry. -/
def propagateVariables (keys : List String) (selfVars : Registry) :
    List Registry → Except YErr (List Registry)
  | [] => .ok []
  | par :: rest =>
    match insertKeys keys selfVars par with
    | .error e => .error e
    | .ok par' =>
      match propagateVariables keys par' rest with
      | .error e => .error e
      | .ok rest' => .ok (par' :: rest')

/-- `Component.get_socket_by_name(component, name, type_)` (component.py
lines 913-934): for `type_ != "in"` search `output_sockets +
internal_sockets` first and, when `type_` is `None` and nothing was
found, also `input_sockets`; for `type_ == "in"` search `input_sockets +
internal_sockets`. -/
def getSocketByName (c : Comp) (name : String) (type? : Option String) :
    Option Socket :=
  if type? ≠ some "in" then
    match (c.output_sockets ++ c.internal_sockets).find?
        (fun s => s.name = name) with
    | some s => some s
    | none =>
      if type? = none then
        c.input_sockets.find? (fun s => s.name = name)
      else none
  else
    (c.input_sockets ++ c.internal_sockets).find? (fun s => s.name = name)

/-- `Component.get_socket(socket_name, create_internal_if_not_found=...)`
for a socket given by a name string (component.py lines 801-885, the
`isinstance(socket, str)` branch): look the name up with `type_=None`;
if nothing is found and `createInternal` is set, create an internal
socket with `type_="in"` (line 878: `self.add_socket(socket_name,
value=constant_dataop, type_="in", internal=True)`, with no constant
value for a name-string specifier) and look it up again; otherwise
raise.  Returns the (possibly extended) component and the socket. -/
def getSocketStr (c : Comp) (name : String) (createInternal : Bool) :
    Except YErr (Comp × Socket) :=
  match getSocketByName c name none with
  | some s => .ok (c, s)
  | none =>
    if createInternal then
      match addSocket c name none (some "in") true with
      | .ok c' =>
        match getSocketByName c' name none with
        | some s => .ok (c', s)
        | none => .error (.socketNotFound name)
      | .error e => .error e
    else .error (.socketNotFound name)

/-- The socket-compilation loop of `Component.add_graph_fn`
(component.py lines 466-467): resolve each name in order, auto-creating
missing sockets as internal in-sockets. -/
def resolveSockets (c : Comp) : List String → Except YErr (Comp × List Socket)
  | [] => .ok (c, [])
  | n :: rest =>
    match getSocketStr c n true with
    | .error e => .error e
    | .ok (c1, s) =>
      match resolveSockets c1 rest with
      | .error e => .error e
      | .ok (c2, ss) => .ok (c2, s :: ss)

/-- The connection step of `Component.add_graph_fn` (component.py lines
491-495): every resolved input socket records the graph function as an
outgoing connection (`input_socket.connect_to(graph_fn)`), every
resolved output socket records it as an incoming connection
(`output_socket.connect_from(graph_fn)`).  The Python loop mutates the
socket objects held in the component's collections; here the update is
applied by name, once per occurrence of the name in the respective
list.  (`connect_to`/`connect_from` of the `Socket` class are modelled
from the spec: a socket "carries zero or more connections".) -/
def gfnSocketUpdate (inNames outNames : List String) (method : String)
    (s : Socket) : Socket :=
  { s with
    outgoing := s.outgoing ++
      List.replicate (inNames.count s.name) (Target.graphFn method),
    incoming := s.incoming ++
      List.replicate (outNames.count s.name) (Target.graphFn method) }

/-- The component-wide effect of the connection step: the update above
applied to the sockets held in the three collections. -/
def attachGraphFnConnections (c : Comp) (inNames outNames : List String)
    (method : String) : Comp :=
  { c with
    input_sockets := c.input_sockets.map (gfnSocketUpdate inNames outNames method),
    output_sockets := c.output_sockets.map (gfnSocketUpdate inNames outNames method),
    internal_sockets := c.internal_sockets.map (gfnSocketUpdate inNames outNames method) }

/-- `Component.add_graph_fn(inputs, outputs, method, flags...)`
(component.py lines 425-499) with the method name given explicitly (the
`method=None` introspection branch is not modelled): resolve all input
then all output socket names (auto-creating internal in-sockets),
default each structural flag from the component when not given, record
the `GraphFunction`, wire the sockets to it, and register it as a
no-input entry point when it has no input sockets. -/
def addGraphFn (c : Comp) (inputs outputs : List String) (method : String)
    (flatten? split? addKey? unflatten? : Option Bool) :
    Except YErr Comp :=
  match resolveSockets c inputs with
  | .error e => .error e
  | .ok (c1, inSocks) =>
    match resolveSockets c1 outputs with
    | .error e => .error e
    | .ok (c2, outSocks) =>
      let gfn : GraphFn :=
        { method := method,
          inputSocketNames := inSocks.map Socket.name,
          outputSocketNames := outSocks.map Socket.name,
          flatten_ops :=
            match flatten? with
            | some b => b
            | none => c.flatten_ops,
          split_ops :=
            match split? with
            | some b => b
            | none => c.split_ops,
          add_auto_key_as_first_param :=
            match addKey? with
            | some b => b
            | none => c.add_auto_key_as_first_param,
          unflatten_ops :=
            match unflatten? with
            | some b => b
            | none => c.unflatten_ops }
      let c3 := { c2 with graph_fns := c2.graph_fns ++ [gfn] }
      let c4 := attachGraphFnConnections c3 (inSocks.map Socket.name)
        (outSocks.map Socket.name) method
      if inSocks.length = 0 then
        .ok { c4 with
          no_input_entry_points := c4.no_input_entry_points ++ [gfn] }
      else .ok c4

/-- `Socket.connect_from`: record an incoming connection.  Modelled from
the spec (a socket "holds zero or more connections"); the `Socket` class
lives outside the sources under study. -/
def Socket.connectFrom (s : Socket) (t : Target) : Socket :=
  { s with incoming := s.incoming ++ [t] }

/-- `Socket.connect_to`: record an outgoing connection.  Modelled from
the spec, like `Socket.connectFrom`. -/
def Socket.connectTo (s : Socket) (t : Target) : Socket :=
  { s with outgoing := s.outgoing ++ [t] }

/-- `Socket.disconnect_from`: remove an incoming connection.  Modelled
from the spec (`disconnect` "mutates the connection lists"). -/
def Socket.disconnectFrom (s : Socket) (t : Target) : Socket :=
  { s with incoming := s.incoming.erase t }

/-- `Socket.disconnect_to`: remove an outgoing connection.  Modelled
from the spec, like `Socket.disconnectFrom`. -/
def Socket.disconnectTo (s : Socket) (t : Target) : Socket :=
  { s with outgoing := s.outgoing.erase t }

/-- The connection target standing for a given socket. -/
def sockTarget (s : Socket) : Target :=
  Target.sock s.component s.name

/-- A connection-end specifier passed to `connect`/`disconnect`, already
resolved to the closed variants the claims quantify over: a space
descriptor, a constant value (`SingleDataOp`), or a socket object (the
pass-through branch of `get_socket`, component.py lines 841-842).
String and component-shorthand specifiers resolve to one of these
before the connection is made. -/
inductive ConnSpec where
  | space (id : Nat)
  | constOp (v : Nat)
  | sock (s : Socket)
  deriving DecidableEq, Repr

/-- `Component._connect_disconnect(from_, to_, disconnect)`
(component.py lines 728-799) on resolved specifiers:
* if `from_` is a `Space` or `SingleDataOp` (lines 742-753): resolve
  `to_` to a socket, `assert to_socket_obj.type == "in"`, then
  `connect_from`/`disconnect_from`;
* else if `to_` is a `Space` (lines 754-763; `SingleDataOp` is *not*
  part of this isinstance check): resolve `from_`,
  `assert from_socket_obj.type == "out"`, then
  `connect_to`/`disconnect_to`;
* otherwise (lines 789-799) connect the two sockets in both ways — and
  only in the `disconnect` branch check that the two sockets do not
  belong to the same component.
`get_socket` applied to a specifier that is neither a socket nor
handled earlier fails in the source (it is not a valid socket spec);
this is rendered as `invalidSocketSpec`.  Returns the updated socket
objects. -/
def connectDisconnect (from_ to_ : ConnSpec) (disconnect : Bool) :
    Except YErr (List Socket) :=
  match from_ with
  | .space sp =>
    match to_ with
    | .sock t =>
      if t.type_ = "in" then
        if disconnect then .ok [t.disconnectFrom (Target.space sp)]
        else .ok [t.connectFrom (Target.space sp)]
      else .error (.assertionFailure "Cannot connect a Space to an out-Socket!")
    | _ => .error .invalidSocketSpec
  | .constOp v =>
    match to_ with
    | .sock t =>
      if t.type_ = "in" then
        if disconnect then .ok [t.disconnectFrom (Target.constOp v)]
        else .ok [t.connectFrom (Target.constOp v)]
      else .error (.assertionFailure "Cannot connect a Space to an out-Socket!")
    | _ => .error .invalidSocketSpec
  | .sock f =>
    match to_ with
    | .space sp =>
      if f.type_ = "out" then
        if disconnect then .ok [f.disconnectTo (Target.space sp)]
        else .ok [f.connectTo (Target.space sp)]
      else .error (.assertionFailure "Cannot connect an in-Socket to a Space!")
    | .constOp _ => .error .invalidSocketSpec
    | .sock t =>
      if disconnect then
        if f.component = t.component then
          .error .sameComponentSockets
        else .ok [f.disconnectTo (sockTarget t), t.disconnectFrom (sockTarget f)]
      else .ok [f.connectTo (sockTarget t), t.connectFrom (sockTarget f)]

/-- ASCII model of the character class `[\w\-]` of the scope assertion. -/
def isScopeChar (c : Char) : Bool :=
  isPyWordChar c || c = '-'

/-- `re.match(r'^[\w\-]*$', s)` as used by the scope assertion of
`Component.__init__` (component.py lines 82-83), with Python's `$`
semantics: `$` matches at the end of the string *or just before a
newline at the end of the string*.  So the assertion accepts either a
string of `[\w\-]` characters, or such a string followed by one final
newline.  (`\w` is modelled over ASCII, see `isPyWordChar`.) -/
def pyScopeMatch (s : String) : Bool :=
  s.data.all isScopeChar ||
    (decide (s.data.getLast? = some '\n') && s.data.dropLast.all isScopeChar)

/-- The hierarchical view of a `Component`: `scope`, `name`,
`global_scope`, the parent link (`parent_component`, recorded by the
parent's name; `none` models the Python `None`) and the ordered
sub-component collection (`sub_components`, an `OrderedDict` keyed by
each child's `name`; here the insertion-ordered list of children). -/
inductive TreeComp where
  | mk (scope name global_scope : String) (parent? : Option String)
      (subs : List TreeComp)

/-- The `scope` field. -/
def TreeComp.scope : TreeComp → String
  | .mk s _ _ _ _ => s

/-- The `name` field. -/
def TreeComp.name : TreeComp → String
  | .mk _ n _ _ _ => n

/-- The `global_scope` field. -/
def TreeComp.global_scope : TreeComp → String
  | .mk _ _ g _ _ => g

/-- The `parent_component` field (by parent name; `none` = Python `None`). -/
def TreeComp.parent? : TreeComp → Option String
  | .mk _ _ _ p _ => p

/-- The `sub_components` collection (ordered list of children). -/
def TreeComp.subs : TreeComp → List TreeComp
  | .mk _ _ _ _ subs => subs

/-- The hierarchy-relevant part of `Component.__init__` (component.py
lines 81-141): assert the scope pattern, set `global_scope = scope`,
default `name` to `scope` when no name is given, start with no parent
and no sub-components. -/
def mkComponent (scope : String) (name? : Option String) :
    Except YErr TreeComp :=
  if pyScopeMatch scope then
    .ok (TreeComp.mk scope
      (match name? with
       | some n => n
       | none => scope)
      scope none [])
  else .error (.assertionFailure "scope does not match scope-pattern")

mutual

/-- `Component.propagate_scope(sub_component)` (component.py lines
622-633), with `self.global_scope` passed as `selfG`: when `selfG` is
non-empty, overwrite the child's `global_scope` with
`selfG + ("/" + scope if scope else "")`; in every case recurse into
the grandchildren with the child's (possibly updated) `global_scope`. -/
def propagateScope (selfG : String) : TreeComp → TreeComp
  | .mk s n g p subs =>
    let g' := if selfG ≠ "" then selfG ++ (if s ≠ "" then "/" ++ s else "") else g
    .mk s n g' p (propagateScopeList g' subs)

/-- The loop `for sc in sub_component.sub_components.values():
sub_component.propagate_scope(sc)` (component.py lines 632-633), run
with the sub-component's updated `global_scope`. -/
def propagateScopeList (g : String) : List TreeComp → List TreeComp
  | [] => []
  | c :: rest => propagateScope g c :: propagateScopeList g rest

end

/-- `Component.add_component(component)` with no connection spec
(component.py lines 501-549, `connections=None`): raise on a duplicate
sub-component name, raise when the child already has a parent,
otherwise set the child's parent link, record the child in
`sub_components` under its name, and fix the whole subtree's
`global_scope`s via `propagate_scope`. -/
def addComponent (parent child : TreeComp) : Except YErr TreeComp :=
  if parent.subs.any (fun d => d.name = child.name) then
    .error (.duplicateSubComponentName child.name)
  else if child.parent?.isSome then
    .error (.alreadyAttached child.name)
  else
    match child with
    | .mk s n g _ subs =>
      let attached := propagateScope parent.global_scope
        (TreeComp.mk s n g (some parent.name) subs)
      match parent with
      | .mk ps pn pg pp psubs => .ok (TreeComp.mk ps pn pg pp (psubs ++ [attached]))

/-- The `global_scope` a component with scope `s` receives when its
parent's `global_scope` is `g`, per `propagate_scope`: untouched parents
with empty `global_scope` leave the child's own consistent value, which
is `s` at the top level; a non-empty `g` yields `g` itself for an empty
child scope and `g ++ "/" ++ s` otherwise. -/
def expectedScope (g s : String) : String :=
  if g = "" then s else if s = "" then g else g ++ "/" ++ s

/-- The tree `c`, sitting at a position whose prefix `global_scope` is
`g`, has all `global_scope` fields consistent: its own equals
`expectedScope g scope`, and recursively for all children below it. -/
inductive Consistent : String → TreeComp → Prop where
  | mk {g s n gs p subs} (hgs : gs = expectedScope g s)
      (hsubs : ∀ c ∈ subs, Consistent gs c) :
      Consistent g (TreeComp.mk s n gs p subs)

/-- The descendant of `t` reached by the child-index path `path`. -/
def getAtPath : TreeComp → List Nat → Option TreeComp
  | c, [] => some c
  | c, i :: rest =>
    match c.subs.get? i with
    | some ch => getAtPath ch rest
    | none => none

/-- The scopes of the nodes visited along `path` from the root `t`
down, the root's own scope included. -/
def pathScopes : TreeComp → List Nat → List String
  | c, [] => [c.scope]
  | c, i :: rest =>
    c.scope ::
      (match c.subs.get? i with
       | some ch => pathScopes ch rest
       | none => [])

/-- A list of strings joined with the separator `/`. -/
def joinedBySlash : List String → String
  | [] => ""
  | [s] => s
  | s :: rest => s ++ "/" ++ joinedBySlash rest

/-- The claim's reading of the `global_scope` invariant, taken from the
spec's words: "the concatenation of the scope strings of its ancestors
from the root down to itself joined by /". -/
def claimGlobalScope (scopes : List String) : String :=
  joinedBySlash scopes

/-- The amended `global_scope` invariant: as `claimGlobalScope`, but
empty scope strings are left out of the join. -/
def amendedGlobalScope (scopes : List String) : String :=
  joinedBySlash (scopes.filter (fun s => s ≠ ""))

/-- The trees obtainable by some sequence of successful `add_component`
calls: a freshly constructed component is assembled, and attaching one
assembled tree to another (in any order, at any stage) yields an
assembled tree. -/
inductive Assembled : TreeComp → Prop where
  | base {scope name? c} (h : mkComponent scope name? = .ok c) : Assembled c
  | step {p c r} (hp : Assembled p) (hc : Assembled c)
      (h : addComponent p c = .ok r) : Assembled r

/-- The pattern `[A-Za-z0-9_-]*` from the claim about the scope
assertion, taken from the spec's words. -/
def claimScopeChar (c : Char) : Bool :=
  c.isAlphanum || c = '_' || c = '-'

/-- A string consisting solely of `[A-Za-z0-9_-]` characters — the
claim's reading of the scope assertion, taken from the spec's words. -/
def claimScopePattern (s : String) : Bool :=
  s.data.all claimScopeChar

/-- Drop a single newline at the very end of the string, when present. -/
def stripTrailingNewline (s : String) : String :=
  if s.data.getLast? = some '\n' then String.mk s.data.dropLast else s

/-! ## Helper lemmas -/

/-- Appending to a non-empty string keeps it non-empty. -/
theorem append_ne_empty_left {g : String} (x : String) (h : g ≠ "") :
    g ++ x ≠ "" := by
  intro hc
  apply h
  have hlen := congrArg String.length hc
  rw [String.length_append] at hlen
  have : g.length = 0 := by
    have : ("" : String).length = 0 := rfl
    omega
  cases g with
  | mk data =>
    cases data with
    | nil => rfl
    | cons a l => simp [String.length, List.length] at this

/-- The accumulator-passing loop of `check_input_completeness` computes
the conjunction "every in-socket has a space". -/
theorem foldl_space_check (l : List Socket) (b : Bool) :
    l.foldl (fun acc s => if s.space.isNone then false else acc) b
      = (b && l.all (fun s => s.space.isSome)) := by
  induction l generalizing b with
  | nil => simp
  | cons s rest ih =>
    simp only [List.foldl_cons, List.all_cons]
    rw [ih]
    cases hs : s.space <;> simp [hs, Bool.and_assoc, Bool.and_comm]

/-- Sample flat component with no sockets, no variables, default flags. -/
def comp0 : Comp :=
  { id := 0, name := "comp0", global_scope := "",
    flatten_ops := true, split_ops := false,
    add_auto_key_as_first_param := false, unflatten_ops := true,
    input_sockets := [], output_sockets := [], internal_sockets := [],
    input_complete := false, graph_fns := [], no_input_entry_points := [],
    varRegistry := [] }

/-! ## C4 — input-completeness flag -/

/-- C4: `check_input_completeness` leaves every field but
`input_complete` alone and sets the flag to (old flag) OR ("every
socket in `input_sockets` holds a resolved space").  In particular the
flag is monotonic — once `true`, no sequence of calls can clear it —
and a call switches it to `true` exactly when every in-socket holds a
resolved space descriptor. -/
theorem C4_check_input_completeness (c : Comp) :
    checkInputCompleteness c =
      { c with input_complete :=
          c.input_complete || c.input_sockets.all (fun s => s.space.isSome) } := by
  unfold checkInputCompleteness
  cases h : c.input_complete with
  | false =>
    rw [if_pos (by simp), foldl_space_check]
    simp
  | true =>
    rw [if_neg (by simp)]
    simp only [Bool.true_or]
    conv_rhs => rw [← h]

/-! ## C1 — connecting two sockets of the same component -/

/-- An in-socket named `a` of the component with identity `0`. -/
def inSockA : Socket :=
  { name := "a", type_ := "in", component := 0,
    incoming := [], outgoing := [], space := none }

/-- An out-socket named `b` of the same component (identity `0`). -/
def outSockB : Socket :=
  { name := "b", type_ := "out", component := 0,
    incoming := [], outgoing := [], space := none }

/-- C1 (refuting the claim as stated, in line with the source's own
docstring): `connect` on two sockets of the *same* component does not
raise — it returns normally and records the connection on both sockets —
while the identical call with `disconnect=True` does raise the
same-component error.  The sanity check of `_connect_disconnect` sits
inside the `disconnect` branch only (component.py lines 790-793),
although its docstring promises a `YARLError` "if one tries to connect
two Sockets of the same Component". -/
theorem C1_connect_same_component_not_rejected :
    outSockB.component = inSockA.component ∧
    connectDisconnect (.sock outSockB) (.sock inSockA) false =
      .ok [{ outSockB with outgoing := [Target.sock 0 "a"] },
           { inSockA with incoming := [Target.sock 0 "b"] }] ∧
    connectDisconnect (.sock outSockB) (.sock inSockA) true =
      .error .sameComponentSockets :=
  ⟨rfl, rfl, rfl⟩

/-! ## C7 — direction restrictions for space/constant connections -/

/-- C7: `_connect_disconnect` rejects (via a failed assertion) any
attempt to connect a space descriptor or a constant value to a socket
that is not an in-socket, and any attempt to connect a socket that is
not an out-socket to a space descriptor. -/
theorem C7_space_connection_direction (s : Socket) (sp v : Nat) (d : Bool) :
    (s.type_ ≠ "in" →
      connectDisconnect (.space sp) (.sock s) d =
        .error (.assertionFailure "Cannot connect a Space to an out-Socket!"))
    ∧ (s.type_ ≠ "in" →
      connectDisconnect (.constOp v) (.sock s) d =
        .error (.assertionFailure "Cannot connect a Space to an out-Socket!"))
    ∧ (s.type_ ≠ "out" →
      connectDisconnect (.sock s) (.space sp) d =
        .error (.assertionFailure "Cannot connect an in-Socket to a Space!")) := by
  refine ⟨fun h => ?_, fun h => ?_, fun h => ?_⟩ <;>
    simp [connectDisconnect, h]

/-- Closed instance of `C7_space_connection_direction`: connecting a
space to the out-socket `b`, a constant to the out-socket `b`, and the
in-socket `a` to a space, all raise. -/
theorem C7_witness :
    connectDisconnect (.space 5) (.sock outSockB) false =
      .error (.assertionFailure "Cannot connect a Space to an out-Socket!")
    ∧ connectDisconnect (.constOp 3) (.sock outSockB) false =
      .error (.assertionFailure "Cannot connect a Space to an out-Socket!")
    ∧ connectDisconnect (.sock inSockA) (.space 5) false =
      .error (.assertionFailure "Cannot connect an in-Socket to a Space!") :=
  ⟨(C7_space_connection_direction outSockB 5 3 false).1 (by decide),
   (C7_space_connection_direction outSockB 5 3 false).2.1 (by decide),
   (C7_space_connection_direction inSockA 5 3 false).2.2 (by decide)⟩

/-! ## C9 — the scope assertion of `Component.__init__` -/

/-- C9 (refuting the claim as stated): the scope string `"a\n"` contains
a character outside `[A-Za-z0-9_-]`, yet component construction accepts
it — Python's `$` also matches just before a trailing newline. -/
theorem C9_counterexample :
    (mkComponent "a\n" none = .ok (TreeComp.mk "a\n" "a\n" "a\n" none []))
    ∧ claimScopePattern "a\n" = false :=
  ⟨rfl, rfl⟩

/-- The two spellings of the accepted character class agree. -/
theorem isScopeChar_eq_claimScopeChar (c : Char) :
    isScopeChar c = claimScopeChar c := by
  simp [isScopeChar, claimScopeChar, isPyWordChar, Bool.or_assoc]

/-- Character-wise, the two spellings of the accepted class agree on
whole strings as well. -/
theorem all_isScopeChar_eq (l : List Char) :
    l.all isScopeChar = l.all claimScopeChar := by
  induction l with
  | nil => rfl
  | cons a l ih => simp [List.all_cons, ih, isScopeChar_eq_claimScopeChar]

/-- The scope assertion accepts exactly the strings whose trailing
newline (if any) has been dropped and whose remaining characters all
lie in `[A-Za-z0-9_-]`. -/
theorem pyScopeMatch_eq_claim (s : String) :
    pyScopeMatch s = claimScopePattern (stripTrailingNewline s) := by
  unfold pyScopeMatch claimScopePattern stripTrailingNewline
  by_cases hc : s.data.getLast? = some '\n'
  · rw [if_pos hc]
    have hmem := List.mem_of_getLast?_eq_some hc
    have hfalse : s.data.all isScopeChar = false := by
      cases hall : s.data.all isScopeChar
      · rfl
      · exfalso
        have := (List.all_eq_true.mp hall) _ hmem
        simp [isScopeChar, isPyWordChar] at this
    rw [hfalse]
    simp [hc, all_isScopeChar_eq]
  · rw [if_neg hc]
    simp [hc, all_isScopeChar_eq]

/-- C9 (amended): component construction accepts a scope string exactly
when the string — after dropping a single trailing newline, which
Python's `$` tolerates — consists solely of `[A-Za-z0-9_-]` characters
(with `\w` read over ASCII; Python 3's `\w` additionally admits
non-ASCII word characters). -/
theorem C9_scope_assertion (s : String) (name? : Option String) :
    (mkComponent s name?).isOk = claimScopePattern (stripTrailingNewline s) := by
  unfold mkComponent
  rw [← pyScopeMatch_eq_claim]
  cases hm : pyScopeMatch s <;> simp [hm, Except.isOk, Except.toBool]

/-! ## C8 — `add_socket` duplicate handling and collection targeting -/

/-- C8: `add_socket` raises on a name already present in any of the
three socket collections (whatever the type argument, given or to be
inferred); on a fresh name with a given direction it appends exactly
one new socket to the collection selected by the `internal` flag and
the direction, leaving the other two collections unchanged. -/
theorem C8_add_socket (c : Comp) (name : String) (v : Option Nat)
    (internal : Bool) :
    (∀ type?, name ∈ allSocketNames c →
        ∃ e, addSocket c name v type? internal = .error e)
    ∧ (∀ t, name ∉ allSocketNames c →
        ∃ c' sock, addSocket c name v (some t) internal = .ok c' ∧
          sock.name = name ∧ sock.type_ = t ∧
          ((internal = true ∧
              c'.internal_sockets = c.internal_sockets ++ [sock] ∧
              c'.input_sockets = c.input_sockets ∧
              c'.output_sockets = c.output_sockets) ∨
           (internal = false ∧ t = "in" ∧
              c'.input_sockets = c.input_sockets ++ [sock] ∧
              c'.output_sockets = c.output_sockets ∧
              c'.internal_sockets = c.internal_sockets) ∨
           (internal = false ∧ t ≠ "in" ∧
              c'.output_sockets = c.output_sockets ++ [sock] ∧
              c'.input_sockets = c.input_sockets ∧
              c'.internal_sockets = c.internal_sockets))) := by
  constructor
  · intro type? hmem
    cases type? with
    | some t =>
      exact ⟨.duplicateSocket name c.name, by simp [addSocket, hmem]⟩
    | none =>
      cases hinf : inferSocketType name with
      | none =>
        exact ⟨.cannotInferSocketType name, by simp [addSocket, hinf]⟩
      | some t =>
        exact ⟨.duplicateSocket name c.name, by simp [addSocket, hinf, hmem]⟩
  · intro t hnot
    cases internal with
    | true =>
      refine ⟨{ c with internal_sockets :=
          c.internal_sockets ++ [newSocket c name v t] },
        newSocket c name v t, ?_, rfl, rfl, Or.inl ⟨rfl, rfl, rfl, rfl⟩⟩
      simp [addSocket, hnot]
    | false =>
      by_cases ht : t = "in"
      · subst ht
        refine ⟨{ c with input_sockets :=
            c.input_sockets ++ [newSocket c name v "in"] },
          newSocket c name v "in", ?_, rfl, rfl,
          Or.inr (Or.inl ⟨rfl, rfl, rfl, rfl, rfl⟩)⟩
        simp [addSocket, hnot]
      · refine ⟨{ c with output_sockets :=
            c.output_sockets ++ [newSocket c name v t] },
          newSocket c name v t, ?_, rfl, rfl,
          Or.inr (Or.inr ⟨rfl, ht, rfl, rfl, rfl⟩)⟩
        simp [addSocket, hnot, ht]

/-- Sample flat component that already owns one in-socket named `s`. -/
def comp1 : Comp :=
  { comp0 with input_sockets :=
      [{ name := "s", type_ := "in", component := 0,
         incoming := [], outgoing := [], space := none }] }

/-- Closed instance of `C8_add_socket`: adding `s` to `comp1` again
fails, adding a fresh `t` out-socket appends it to `output_sockets`. -/
theorem C8_witness :
    (∃ e, addSocket comp1 "s" none (some "out") false = .error e)
    ∧ (∃ c' sock, addSocket comp1 "t" none (some "out") false = .ok c' ∧
        sock.name = "t" ∧ sock.type_ = "out" ∧
        ((false = true ∧
            c'.internal_sockets = comp1.internal_sockets ++ [sock] ∧
            c'.input_sockets = comp1.input_sockets ∧
            c'.output_sockets = comp1.output_sockets) ∨
         (false = false ∧ "out" = "in" ∧
            c'.input_sockets = comp1.input_sockets ++ [sock] ∧
            c'.output_sockets = comp1.output_sockets ∧
            c'.internal_sockets = comp1.internal_sockets) ∨
         (false = false ∧ "out" ≠ "in" ∧
            c'.output_sockets = comp1.output_sockets ++ [sock] ∧
            c'.input_sockets = comp1.input_sockets ∧
            c'.internal_sockets = comp1.internal_sockets))) :=
  ⟨(C8_add_socket comp1 "s" none false).1 (some "out") (by decide),
   (C8_add_socket comp1 "t" none false).2 "out" (by decide)⟩

/-! ## C6 — socket-direction inference from the name -/

/-- A successful anchored match needs at least one character of payload
inside the string, so it can only start before the end. -/
theorem tryMatchAt_some_lt {s : List Char} {j : Nat} {t : String}
    (h : tryMatchAt s j = some t) : j < s.length := by
  by_contra hge
  have hdrop : s.drop j = [] := List.drop_eq_nil_of_le (by omega)
  have hget : s.get? j = none := List.get?_eq_none.mpr (by omega)
  have hpay : payloadAt s j = none := by
    simp [payloadAt, litAt, hdrop]
  rw [tryMatchAt, hget] at h
  simp only [hpay] at h
  cases hb : boundaryAt s j <;> simp [hb] at h

/-- Positions past the end of the string never match. -/
theorem tryMatchAt_none_of_ge {s : List Char} {i : Nat}
    (hi : s.length ≤ i) : tryMatchAt s i = none := by
  cases h : tryMatchAt s i with
  | none => rfl
  | some t => exact absurd (tryMatchAt_some_lt h) (by omega)

/-- The scan returns the payload of the leftmost matching position. -/
theorem searchAux_some {s : List Char} {t : String} :
    ∀ (count i j : Nat), i ≤ j → j < i + count → tryMatchAt s j = some t →
    (∀ k, i ≤ k → k < j → tryMatchAt s k = none) →
    searchAux s count i = some t := by
  intro count
  induction count with
  | zero =>
    intro i j h1 h2 _ _
    omega
  | succ n ih =>
    intro i j h1 h2 hj hk
    rw [searchAux]
    cases hi : tryMatchAt s i with
    | some r =>
      rcases Nat.lt_or_ge i j with hlt | hge
      · rw [hk i (Nat.le_refl i) hlt] at hi
        cases hi
      · have hij : j = i := Nat.le_antisymm hge h1
        subst hij
        rw [hj] at hi
        cases hi
        rfl
    | none =>
      have hne : j ≠ i := by
        intro he
        subst he
        rw [hj] at hi
        cases hi
      exact ih (i + 1) j (by omega) (by omega) hj
        (fun k hk1 hk2 => hk k (by omega) hk2)

/-- If no position matches, the scan fails. -/
theorem searchAux_none {s : List Char} (h : ∀ j, tryMatchAt s j = none) :
    ∀ count i, searchAux s count i = none := by
  intro count
  induction count with
  | zero => intro i; rfl
  | succ n ih =>
    intro i
    rw [searchAux, h i]
    exact ih (i + 1)

/-- C6 (counterexample to the claim as stated): the name `myinput`
contains the substring `input`, yet `add_socket` with the direction
omitted raises — the inference regex
`([\d_]|\b)(in|out)put([\d_]|\b)` demands a digit, underscore or word
boundary around the occurrence, and `myinput` offers none before it. -/
theorem C6_counterexample :
    "myinput" = "my" ++ "input" ∧
    addSocket comp0 "myinput" none none false =
      .error (.cannotInferSocketType "myinput") :=
  ⟨rfl, rfl⟩

/-- C6 (amended): with the direction omitted, `add_socket` raises
exactly when no position of the name matches
`([\d_]|\b)(in|out)put([\d_]|\b)`; when some position matches, the
call behaves as if the direction captured at the leftmost matching
position (`in` or `out`) had been passed explicitly. -/
theorem C6_direction_inference (c : Comp) (name : String) (v : Option Nat)
    (internal : Bool) :
    ((∀ i, tryMatchAt name.data i = none) →
        addSocket c name v none internal =
          .error (.cannotInferSocketType name))
    ∧ (∀ i t, tryMatchAt name.data i = some t →
        (∀ j, j < i → tryMatchAt name.data j = none) →
        addSocket c name v none internal =
          addSocket c name v (some t) internal) := by
  constructor
  · intro h
    have hn : inferSocketType name = none := searchAux_none h _ 0
    simp [addSocket, hn]
  · intro i t hi hleft
    have hlen : i < name.data.length := tryMatchAt_some_lt hi
    have hs : inferSocketType name = some t := by
      exact searchAux_some (name.data.length + 1) 0 i (Nat.zero_le i)
        (by omega) hi (fun k _ hk => hleft k hk)
    simp only [addSocket, hs]

/-- Closed instance of `C6_direction_inference`: `my_input` (leftmost
match at position 2, via the `[\d_]` alternative on `_`) behaves like
an explicit in-socket declaration, and the match-free name `xy` raises. -/
theorem C6_witness :
    (addSocket comp0 "my_input" none none false =
        addSocket comp0 "my_input" none (some "in") false)
    ∧ (addSocket comp0 "xy" none none false =
        .error (.cannotInferSocketType "xy")) :=
  ⟨(C6_direction_inference comp0 "my_input" none false).2 2 "in"
      (by decide) (by decide),
   (C6_direction_inference comp0 "xy" none false).1 (fun i => by
      rcases Nat.lt_or_ge i 2 with h | h
      · interval_cases i <;> decide
      · exact tryMatchAt_none_of_ge (Nat.le_trans (by decide) h))⟩

/-! ## C5 — `add_component` attachment rules -/

/-- `propagate_scope` never changes a component's own `scope`. -/
theorem propagateScope_scope (g : String) (x : TreeComp) :
    (propagateScope g x).scope = x.scope := by
  cases x
  simp [propagateScope, TreeComp.scope]

/-- `propagate_scope` never changes a component's `name`. -/
theorem propagateScope_name (g : String) (x : TreeComp) :
    (propagateScope g x).name = x.name := by
  cases x
  simp [propagateScope, TreeComp.name]

/-- `propagate_scope` never changes a component's parent link. -/
theorem propagateScope_parent (g : String) (x : TreeComp) :
    (propagateScope g x).parent? = x.parent? := by
  cases x
  simp [propagateScope, TreeComp.parent?]

/-- C5: `add_component` fails on a sibling name collision, fails when
the child already has a parent, and otherwise appends exactly one new
entry — the child, now carrying the parent link — to the parent's
sub-component collection, leaving the parent's other fields and the
previously attached children untouched. -/
theorem C5_add_component (p c : TreeComp) :
    (p.subs.any (fun d => d.name = c.name) = true →
        addComponent p c = .error (.duplicateSubComponentName c.name))
    ∧ (p.subs.any (fun d => d.name = c.name) = false → c.parent?.isSome = true →
        addComponent p c = .error (.alreadyAttached c.name))
    ∧ (p.subs.any (fun d => d.name = c.name) = false → c.parent? = none →
        ∃ r, addComponent p c = .ok r ∧
          r.scope = p.scope ∧ r.name = p.name ∧
          r.global_scope = p.global_scope ∧ r.parent? = p.parent? ∧
          r.subs.take p.subs.length = p.subs ∧
          ∃ d, r.subs.getLast? = some d ∧ d.name = c.name ∧
            d.parent? = some p.name ∧ d.scope = c.scope) := by
  refine ⟨fun h1 => ?_, fun h1 h2 => ?_, fun h1 h2 => ?_⟩
  · unfold addComponent
    rw [if_pos h1]
  · unfold addComponent
    rw [if_neg (by simp [h1]), if_pos h2]
  · cases c with
    | mk s n g cp subs =>
      simp only [TreeComp.parent?] at h2
      subst h2
      cases p with
      | mk ps pn pg pp psubs =>
        refine ⟨TreeComp.mk ps pn pg pp
            (psubs ++ [propagateScope pg (TreeComp.mk s n g (some pn) subs)]),
          ?_, rfl, rfl, rfl, rfl, ?_, ?_⟩
        · unfold addComponent
          rw [if_neg (by simp [h1]), if_neg (by simp [TreeComp.parent?])]
          rfl
        · simp [TreeComp.subs, List.take_left]
        · refine ⟨propagateScope pg (TreeComp.mk s n g (some pn) subs),
            ?_, ?_, ?_, ?_⟩
          · simp [TreeComp.subs]
          · rw [propagateScope_name]
            rfl
          · rw [propagateScope_parent]
            rfl
          · rw [propagateScope_scope]
            rfl

/-- A parent that already owns a child named `c`. -/
def treeWithChildC : TreeComp :=
  .mk "p" "p" "p" none [.mk "c" "c" "p/c" (some "p") []]

/-- A component already attached somewhere (non-`None` parent link). -/
def treeAttachedC : TreeComp :=
  .mk "c" "c" "c" (some "x") []

/-- Closed instance of `C5_add_component`: duplicate-name failure,
already-attached failure, and a successful attach. -/
theorem C5_witness :
    (addComponent treeWithChildC (TreeComp.mk "q" "c" "q" none []) =
        .error (.duplicateSubComponentName "c"))
    ∧ (addComponent (TreeComp.mk "p" "p" "p" none []) treeAttachedC =
        .error (.alreadyAttached "c"))
    ∧ (∃ r, addComponent (TreeComp.mk "p" "p" "p" none [])
          (TreeComp.mk "c" "c" "c" none []) = .ok r ∧
        r.scope = "p" ∧ r.name = "p" ∧
        r.global_scope = "p" ∧ r.parent? = none ∧
        r.subs.take 0 = [] ∧
        ∃ d, r.subs.getLast? = some d ∧ d.name = "c" ∧
          d.parent? = some "p" ∧ d.scope = "c") :=
  ⟨(C5_add_component treeWithChildC (TreeComp.mk "q" "c" "q" none [])).1
      (by decide),
   (C5_add_component (TreeComp.mk "p" "p" "p" none []) treeAttachedC).2.1
      (by decide) (by decide),
   (C5_add_component (TreeComp.mk "p" "p" "p" none [])
      (TreeComp.mk "c" "c" "c" none [])).2.2 (by decide) (by decide)⟩

/-! ## C3 — variable registration and upward propagation -/

/-- Lookup after dict assignment: the assigned key reads back the new
value, every other key is untouched. -/
theorem rlookup_rinsert (reg : Registry) (k : String) (v : Nat) (k' : String) :
    rlookup (rinsert reg k v) k' =
      if k = k' then some v else rlookup reg k' := by
  induction reg with
  | nil => rfl
  | cons p rest ih =>
    obtain ⟨a, b⟩ := p
    by_cases hak : a = k
    · subst hak
      simp only [rinsert, if_pos rfl, rlookup]
      by_cases h : a = k' <;> simp [h]
    · simp only [rinsert, if_neg hak, rlookup]
      by_cases h : a = k'
      · have hk : ¬ k = k' := fun he => hak (h.trans he.symm)
        rw [if_pos h, if_neg hk, if_pos h]
      · rw [if_neg h, ih]
        by_cases hk : k = k'
        · rw [if_pos hk, if_pos hk]
        · rw [if_neg hk, if_neg hk, if_neg h]

/-- `propagate_variables`' inner loop leaves keys outside `keys`
untouched in the parent registry. -/
theorem insertKeys_preserve {keys : List String} {sv q q' : Registry}
    (h : insertKeys keys sv q = .ok q') :
    ∀ k', k' ∉ keys → rlookup q' k' = rlookup q k' := by
  induction keys generalizing q with
  | nil =>
    cases h
    intro k' _
    rfl
  | cons k rest ih =>
    intro k' hk'
    unfold insertKeys at h
    by_cases hq : (rlookup q k).isSome
    · rw [if_pos hq] at h
      cases h
    · rw [if_neg hq] at h
      cases hsv : rlookup sv k with
      | none =>
        rw [hsv] at h
        cases h
      | some v =>
        rw [hsv] at h
        rw [ih h k' (fun hm => hk' (List.mem_cons_of_mem _ hm)),
          rlookup_rinsert,
          if_neg (fun he => hk' (by rw [← he]; exact List.mem_cons_self _ _))]

/-- The inner loop of `propagate_variables` succeeds exactly when none
of the keys is already present in the parent registry. -/
theorem insertKeys_ok_iff {keys : List String} {sv q : Registry}
    (hnd : keys.Nodup) (hsv : ∀ k ∈ keys, (rlookup sv k).isSome) :
    (∃ q', insertKeys keys sv q = .ok q') ↔
      ∀ k ∈ keys, rlookup q k = none := by
  induction keys generalizing q with
  | nil => simp [insertKeys]
  | cons k rest ih =>
    have hndr : rest.Nodup := (List.nodup_cons.mp hnd).2
    have hknr : k ∉ rest := (List.nodup_cons.mp hnd).1
    have hsvr : ∀ x ∈ rest, (rlookup sv x).isSome :=
      fun x hx => hsv x (List.mem_cons_of_mem _ hx)
    constructor
    · rintro ⟨q', hq'⟩
      unfold insertKeys at hq'
      by_cases hq : (rlookup q k).isSome
      · rw [if_pos hq] at hq'
        cases hq'
      · rw [if_neg hq] at hq'
        cases hsvk : rlookup sv k with
        | none =>
          rw [hsvk] at hq'
          cases hq'
        | some v =>
          rw [hsvk] at hq'
          intro k'' hk''
          rcases List.mem_cons.mp hk'' with he | hm
          · subst he
            exact Option.not_isSome_iff_eq_none.mp hq
          · have hrest := (ih hndr hsvr).mp ⟨q', hq'⟩ k'' hm
            rw [rlookup_rinsert] at hrest
            rwa [if_neg (fun he => hknr (by rw [he]; exact hm))] at hrest
    · intro hall
      unfold insertKeys
      have hqk : rlookup q k = none := hall k (List.mem_cons_self _ _)
      rw [if_neg (by simp [hqk])]
      cases hsvk : rlookup sv k with
      | none =>
        have := hsv k (List.mem_cons_self _ _)
        rw [hsvk] at this
        cases this
      | some v =>
        apply (ih hndr hsvr).mpr
        intro k'' hm
        rw [rlookup_rinsert, if_neg (fun he => hknr (by rw [he]; exact hm))]
        exact hall k'' (List.mem_cons_of_mem _ hm)

/-- On success, the inner loop of `propagate_variables` copies each
key's value from `self.variables` into the parent registry. -/
theorem insertKeys_values {keys : List String} {sv q q' : Registry}
    (h : insertKeys keys sv q = .ok q') (hnd : keys.Nodup) :
    ∀ k ∈ keys, rlookup q' k = rlookup sv k := by
  revert hnd
  induction keys generalizing q with
  | nil =>
    intro _ k hk
    cases hk
  | cons k rest ih =>
    intro hnd k'' hk''
    unfold insertKeys at h
    by_cases hq : (rlookup q k).isSome
    · rw [if_pos hq] at h
      cases h
    · rw [if_neg hq] at h
      cases hsvk : rlookup sv k with
      | none =>
        rw [hsvk] at h
        cases h
      | some v =>
        rw [hsvk] at h
        rcases List.mem_cons.mp hk'' with he | hm
        · subst he
          rw [insertKeys_preserve h k'' (List.nodup_cons.mp hnd).1,
            rlookup_rinsert, if_pos rfl, hsvk]
        · exact ih h (List.nodup_cons.mp hnd).2 k'' hm

/-- `propagate_variables` succeeds exactly when no ancestor registry
already holds any of the keys. -/
theorem propagateVariables_ok_iff {keys : List String} (hnd : keys.Nodup) :
    ∀ {sv : Registry} {ancs : List Registry},
    (∀ k ∈ keys, (rlookup sv k).isSome) →
    ((∃ rs, propagateVariables keys sv ancs = .ok rs) ↔
      ∀ anc ∈ ancs, ∀ k ∈ keys, rlookup anc k = none) := by
  intro sv ancs
  induction ancs generalizing sv with
  | nil => simp [propagateVariables]
  | cons par rest ih =>
    intro hsv
    constructor
    · rintro ⟨rs, hrs⟩
      unfold propagateVariables at hrs
      cases hins : insertKeys keys sv par with
      | error e =>
        simp only [hins] at hrs
        exact Except.noConfusion hrs
      | ok par' =>
        simp only [hins] at hrs
        cases hrec : propagateVariables keys par' rest with
        | error e =>
          simp only [hrec] at hrs
          exact Except.noConfusion hrs
        | ok rest' =>
          intro anc hanc k hk
          rcases List.mem_cons.mp hanc with he | hm
          · subst he
            exact (insertKeys_ok_iff hnd hsv).mp ⟨par', hins⟩ k hk
          · have hsv' : ∀ k ∈ keys, (rlookup par' k).isSome := fun k hk => by
              rw [insertKeys_values hins hnd k hk]
              exact hsv k hk
            exact (ih hsv').mp ⟨rest', hrec⟩ anc hm k hk
    · intro hall
      have hpar : ∀ k ∈ keys, rlookup par k = none :=
        fun k hk => hall par (List.mem_cons_self _ _) k hk
      rcases (insertKeys_ok_iff hnd hsv).mpr hpar with ⟨par', hins⟩
      have hsv' : ∀ k ∈ keys, (rlookup par' k).isSome := fun k hk => by
        rw [insertKeys_values hins hnd k hk]
        exact hsv k hk
      rcases (ih hsv').mpr
          (fun anc hm k hk => hall anc (List.mem_cons_of_mem _ hm) k hk) with
        ⟨rest', hrec⟩
      refine ⟨par' :: rest', ?_⟩
      unfold propagateVariables
      simp only [hins, hrec]

/-- On success, `propagate_variables` leaves every ancestor registry
holding every key with the creating component's value. -/
theorem propagateVariables_values {keys : List String} (hnd : keys.Nodup) :
    ∀ {sv : Registry} {ancs : List Registry} {rs : List Registry},
    propagateVariables keys sv ancs = .ok rs →
    (∀ k ∈ keys, (rlookup sv k).isSome) →
    ∀ r ∈ rs, ∀ k ∈ keys, rlookup r k = rlookup sv k := by
  intro sv ancs
  induction ancs generalizing sv with
  | nil =>
    intro rs h _ r hr
    cases h
    cases hr
  | cons par rest ih =>
    intro rs h hsv r hr k hk
    unfold propagateVariables at h
    cases hins : insertKeys keys sv par with
    | error e =>
      simp only [hins] at h
      exact Except.noConfusion h
    | ok par' =>
      simp only [hins] at h
      cases hrec : propagateVariables keys par' rest with
      | error e =>
        simp only [hrec] at h
        exact Except.noConfusion h
      | ok rest' =>
        simp only [hrec, Except.ok.injEq] at h
        subst h
        have hsv' : ∀ k ∈ keys, (rlookup par' k).isSome := fun k hk => by
          rw [insertKeys_values hins hnd k hk]
          exact hsv k hk
        rcases List.mem_cons.mp hr with he | hm
        · subst he
          exact insertKeys_values hins hnd k hk
        · rw [ih hrec hsv' r hm k hk]
          exact insertKeys_values hins hnd k hk

/-- Flat view of a child component sitting at global scope `p/c`. -/
def compChild : Comp :=
  { comp0 with id := 1, name := "c", global_scope := "p/c" }

/-- The child together with its parent's registry, which *already*
holds the fully-scoped key `p/c/x`. -/
def varWorldEx : VarWorld :=
  { self := compChild, ancestorRegistries := [[("p/c/x", 99)]] }

/-- C3 (refuting the claim as stated): the fully-scoped key `p/c/x`
already exists in the parent's registry, yet creating the variable `x`
on the child raises nothing (`get_variable` is total here), records the
handle only in the child's own registry, and leaves the parent's
registry untouched — no upward propagation and no duplicate check
happen at creation time. -/
theorem C3_counterexample :
    rlookup (varWorldEx.ancestorRegistries.headI) "p/c/x" = some 99
    ∧ (worldGetVariable varWorldEx "x" 7).self.varRegistry = [("p/c/x", 7)]
    ∧ (worldGetVariable varWorldEx "x" 7).ancestorRegistries =
        [[("p/c/x", 99)]] :=
  ⟨rfl, rfl, rfl⟩

/-- C3 (amended): `get_variable` in setter mode registers the handle
under the fully-scoped key `global_scope + "/" + name` (just `name`
when `global_scope` is empty) in this component's *own* registry only.
The upward merge happens later, in `when_input_complete` →
`propagate_variables`, which succeeds exactly when no ancestor registry
already holds one of the propagated keys (otherwise the assertion at
component.py lines 645-647 fires), and on success leaves every ancestor
registry holding every key with the creating component's value. -/
theorem C3_variable_registration (c : Comp) (name : String) (var : Nat)
    (keys : List String) (sv : Registry) (ancs : List Registry)
    (hnd : keys.Nodup) (hsv : ∀ k ∈ keys, (rlookup sv k).isSome) :
    rlookup (getVariableSetter c name var).varRegistry
        (scopedVarKey c.global_scope name) = some var
    ∧ ((∃ rs, propagateVariables keys sv ancs = .ok rs) ↔
        ∀ anc ∈ ancs, ∀ k ∈ keys, rlookup anc k = none)
    ∧ (∀ rs, propagateVariables keys sv ancs = .ok rs →
        ∀ r ∈ rs, ∀ k ∈ keys, rlookup r k = rlookup sv k) := by
  refine ⟨?_, propagateVariables_ok_iff hnd hsv,
    fun rs hrs => propagateVariables_values hnd hrs hsv⟩
  unfold getVariableSetter
  rw [rlookup_rinsert, if_pos rfl]

/-- Closed instance of `C3_variable_registration`: local registration
under the scoped key, and propagation of key `a` through a two-ancestor
chain whose registries are free of `a`. -/
theorem C3_witness :
    rlookup (getVariableSetter compChild "x" 7).varRegistry
        (scopedVarKey "p/c" "x") = some 7
    ∧ ((∃ rs, propagateVariables ["a"] [("a", 1)] [[], [("b", 2)]] = .ok rs) ↔
        ∀ anc ∈ [([] : Registry), [("b", 2)]], ∀ k ∈ ["a"],
          rlookup anc k = none)
    ∧ (∀ rs, propagateVariables ["a"] [("a", 1)] [[], [("b", 2)]] = .ok rs →
        ∀ r ∈ rs, ∀ k ∈ ["a"], rlookup r k = rlookup [("a", 1)] k) :=
  have h := C3_variable_registration compChild "x" 7 ["a"] [("a", 1)]
    [[], [("b", 2)]] (by decide) (by decide)
  ⟨h.1, h.2.1, h.2.2⟩

/-! ## C10 — `add_graph_fn` auto-creates in-typed internal sockets -/

/-- A name found by the `type_=None` lookup names the found socket. -/
theorem getSocketByName_none_name {c : Comp} {n : String} {s : Socket}
    (h : getSocketByName c n none = some s) : s.name = n := by
  unfold getSocketByName at h
  rw [if_pos (by simp)] at h
  cases hf : (c.output_sockets ++ c.internal_sockets).find?
      (fun s => s.name = n) with
  | some x =>
    rw [hf] at h
    cases h
    have := List.find?_some hf
    exact of_decide_eq_true this
  | none =>
    rw [hf, if_pos rfl] at h
    have := List.find?_some h
    exact of_decide_eq_true this

/-- A socket found by the `type_=None` lookup belongs to the component. -/
theorem getSocketByName_none_mem {c : Comp} {n : String} {s : Socket}
    (h : getSocketByName c n none = some s) : s ∈ allSockets c := by
  unfold getSocketByName at h
  rw [if_pos (by simp)] at h
  unfold allSockets
  cases hf : (c.output_sockets ++ c.internal_sockets).find?
      (fun s => s.name = n) with
  | some x =>
    rw [hf] at h
    cases h
    have := List.mem_of_find?_eq_some hf
    simp only [List.mem_append] at this ⊢
    tauto
  | none =>
    rw [hf, if_pos rfl] at h
    have := List.mem_of_find?_eq_some h
    simp only [List.mem_append]
    tauto

/-- The `type_=None` lookup fails exactly on names absent from all
three collections. -/
theorem getSocketByName_none_eq_none {c : Comp} {n : String} :
    getSocketByName c n none = none ↔ n ∉ allSocketNames c := by
  unfold getSocketByName allSocketNames
  rw [if_pos (by simp)]
  cases hf : (c.output_sockets ++ c.internal_sockets).find?
      (fun s => s.name = n) with
  | some x =>
    constructor
    · intro h
      exact absurd h (by simp)
    · intro hmem
      exfalso
      apply hmem
      have hx0 := List.find?_some hf
      have hx := of_decide_eq_true hx0
      have hxm := List.mem_of_find?_eq_some hf
      refine List.mem_map.mpr ⟨x, ?_, hx⟩
      simp only [List.mem_append] at hxm ⊢
      tauto
  | none =>
    rw [if_pos rfl]
    have hno := List.find?_eq_none.mp hf
    rw [List.find?_eq_none]
    constructor
    · intro h hmem
      rcases List.mem_map.mp hmem with ⟨x, hxm, hxn⟩
      simp only [List.mem_append] at hxm
      rcases hxm with (h1 | h2) | h3
      · exact (h x h1) (by simp [hxn])
      · exact (hno x (List.mem_append.mpr (Or.inl h2))) (by simp [hxn])
      · exact (hno x (List.mem_append.mpr (Or.inr h3))) (by simp [hxn])
    · intro hmem x hx
      simp only [decide_eq_true_eq]
      intro hxn
      apply hmem
      refine List.mem_map.mpr ⟨x, ?_, hxn⟩
      simp only [List.mem_append]
      tauto

/-- Membership among a component's sockets survives any step that keeps
the external collections and only appends internal sockets. -/
theorem allSockets_mono {c1 c2 : Comp} {s : Socket} {ext : List Socket}
    (hi : c2.input_sockets = c1.input_sockets)
    (ho : c2.output_sockets = c1.output_sockets)
    (hn : c2.internal_sockets = c1.internal_sockets ++ ext)
    (hs : s ∈ allSockets c1) : s ∈ allSockets c2 := by
  unfold allSockets at hs ⊢
  rw [hi, ho, hn]
  simp only [List.mem_append] at hs ⊢
  tauto

/-- `get_socket` with `create_internal_if_not_found=True` on a name
string always succeeds; it never touches the external socket
collections, extends the internal collection by at most one in-typed
socket, and returns a socket carrying the requested name. -/
theorem getSocketStr_create (c : Comp) (n : String) :
    ∃ c' s, getSocketStr c n true = .ok (c', s) ∧
      c'.input_sockets = c.input_sockets ∧
      c'.output_sockets = c.output_sockets ∧
      (∃ ext, c'.internal_sockets = c.internal_sockets ++ ext ∧
        ∀ x ∈ ext, x.type_ = "in") ∧
      s.name = n ∧ s ∈ allSockets c' := by
  cases hf : getSocketByName c n none with
  | some s =>
    refine ⟨c, s, ?_, rfl, rfl, ⟨[], by simp, by simp⟩,
      getSocketByName_none_name hf, getSocketByName_none_mem hf⟩
    unfold getSocketStr
    rw [hf]
  | none =>
    have hnot : n ∉ allSocketNames c := getSocketByName_none_eq_none.mp hf
    have hadd : addSocket c n none (some "in") true =
        .ok { c with internal_sockets :=
          c.internal_sockets ++ [newSocket c n none "in"] } := by
      simp [addSocket, hnot]
    have hnames : ∀ x ∈ c.output_sockets ++ c.internal_sockets,
        ¬(x.name = n) := by
      intro x hx he
      apply hnot
      refine List.mem_map.mpr ⟨x, ?_, he⟩
      simp only [List.mem_append] at hx ⊢
      tauto
    have hlook : getSocketByName
        { c with internal_sockets :=
            c.internal_sockets ++ [newSocket c n none "in"] } n none =
        some (newSocket c n none "in") := by
      unfold getSocketByName
      rw [if_pos (by simp)]
      have : (c.output_sockets ++
          (c.internal_sockets ++ [newSocket c n none "in"])).find?
            (fun s => s.name = n) = some (newSocket c n none "in") := by
        rw [List.find?_append, List.find?_append]
        rw [List.find?_eq_none.mpr
          (fun x hx => by simp [hnames x (List.mem_append.mpr (Or.inl hx))])]
        rw [List.find?_eq_none.mpr
          (fun x hx => by simp [hnames x (List.mem_append.mpr (Or.inr hx))])]
        simp [newSocket]
      rw [this]
    refine ⟨{ c with internal_sockets :=
        c.internal_sockets ++ [newSocket c n none "in"] },
      newSocket c n none "in", ?_, rfl, rfl,
      ⟨[newSocket c n none "in"], rfl, by simp [newSocket]⟩, rfl, ?_⟩
    · simp [getSocketStr, hf, hadd, hlook]
    · unfold allSockets
      simp

/-- The socket-compilation loop of `add_graph_fn` always succeeds,
never touches the external collections, only appends in-typed internal
sockets, and afterwards every requested name names one of the
component's sockets. -/
theorem resolveSockets_props (c : Comp) (names : List String) :
    ∃ c2 ss, resolveSockets c names = .ok (c2, ss) ∧
      c2.input_sockets = c.input_sockets ∧
      c2.output_sockets = c.output_sockets ∧
      (∃ ext, c2.internal_sockets = c.internal_sockets ++ ext ∧
        ∀ x ∈ ext, x.type_ = "in") ∧
      ∀ n ∈ names, ∃ s ∈ allSockets c2, s.name = n := by
  induction names generalizing c with
  | nil =>
    exact ⟨c, [], rfl, rfl, rfl, ⟨[], by simp, by simp⟩, by simp⟩
  | cons n rest ih =>
    obtain ⟨c1, s, hgs, hi1, ho1, ⟨ext1, hint1, hty1⟩, hsn, hsm⟩ :=
      getSocketStr_create c n
    obtain ⟨c2, ss, hrs, hi2, ho2, ⟨ext2, hint2, hty2⟩, hmem2⟩ := ih c1
    refine ⟨c2, s :: ss, ?_, by rw [hi2, hi1], by rw [ho2, ho1],
      ⟨ext1 ++ ext2, by rw [hint2, hint1, List.append_assoc], ?_⟩, ?_⟩
    · unfold resolveSockets
      simp only [hgs, hrs]
    · intro x hx
      rcases List.mem_append.mp hx with h1 | h2
      · exact hty1 x h1
      · exact hty2 x h2
    · intro m hm
      rcases List.mem_cons.mp hm with he | hm'
      · subst he
        exact ⟨s, allSockets_mono hi2 ho2 hint2 hsm, hsn⟩
      · exact hmem2 m hm'

/-- The per-socket connection update keeps a socket's name. -/
theorem gfnSocketUpdate_name (a b : List String) (m : String) (s : Socket) :
    (gfnSocketUpdate a b m s).name = s.name := rfl

/-- The per-socket connection update keeps a socket's type. -/
theorem gfnSocketUpdate_type (a b : List String) (m : String) (s : Socket) :
    (gfnSocketUpdate a b m s).type_ = s.type_ := rfl

/-- C10: any input or output name passed to `add_graph_fn` that names
no existing socket of the component ends up as an *internal* socket
whose type is `"in"` — also for names from the `outputs` list, which
are therefore in-typed internal sockets rather than out-sockets
(`get_socket` creates them with the hard-coded
`type_="in", internal=True`, component.py line 878). -/
theorem C10_add_graph_fn_socket_creation (c : Comp) (ins outs : List String)
    (m : String) (name : String)
    (hmem : name ∈ ins ++ outs)
    (hnew : ∀ s ∈ allSockets c, s.name ≠ name) :
    ∃ c', addGraphFn c ins outs m none none none none = .ok c' ∧
      ∃ s ∈ c'.internal_sockets, s.name = name ∧ s.type_ = "in" := by
  obtain ⟨c1, inSocks, hrs1, hi1, ho1, ⟨ext1, hint1, hty1⟩, hmem1⟩ :=
    resolveSockets_props c ins
  obtain ⟨c2, outSocks, hrs2, hi2, ho2, ⟨ext2, hint2, hty2⟩, hmem2⟩ :=
    resolveSockets_props c1 outs
  have hpres : ∃ s ∈ allSockets c2, s.name = name := by
    rcases List.mem_append.mp hmem with hin | hout
    · obtain ⟨s, hs, hsn⟩ := hmem1 name hin
      exact ⟨s, allSockets_mono hi2 ho2 hint2 hs, hsn⟩
    · exact hmem2 name hout
  obtain ⟨s, hs, hsn⟩ := hpres
  have hsint : s ∈ ext1 ++ ext2 := by
    have hs' := hs
    unfold allSockets at hs'
    rw [hi2, hi1, ho2, ho1, hint2, hint1] at hs'
    simp only [List.mem_append] at hs'
    rcases hs' with (hin | hout) | (hintl | hext1) | hext2
    · exact absurd hsn
        (hnew s (by unfold allSockets; simp only [List.mem_append]; tauto))
    · exact absurd hsn
        (hnew s (by unfold allSockets; simp only [List.mem_append]; tauto))
    · exact absurd hsn
        (hnew s (by unfold allSockets; simp only [List.mem_append]; tauto))
    · exact List.mem_append.mpr (Or.inl hext1)
    · exact List.mem_append.mpr (Or.inr hext2)
  have hsty : s.type_ = "in" := by
    rcases List.mem_append.mp hsint with h1 | h2
    · exact hty1 s h1
    · exact hty2 s h2
  have hs2 : s ∈ c2.internal_sockets := by
    rw [hint2, hint1, List.append_assoc]
    simp only [List.mem_append]
    right
    exact List.mem_append.mp hsint
  cases hadd : addGraphFn c ins outs m none none none none with
  | error e =>
    exfalso
    unfold addGraphFn at hadd
    simp only [hrs1, hrs2] at hadd
    by_cases hlen : inSocks.length = 0
    · rw [if_pos hlen] at hadd
      exact Except.noConfusion hadd
    · rw [if_neg hlen] at hadd
      exact Except.noConfusion hadd
  | ok c' =>
    refine ⟨c', rfl, ?_⟩
    unfold addGraphFn at hadd
    simp only [hrs1, hrs2] at hadd
    have hint : c'.internal_sockets = c2.internal_sockets.map
        (gfnSocketUpdate (inSocks.map Socket.name)
          (outSocks.map Socket.name) m) := by
      by_cases hlen : inSocks.length = 0
      · rw [if_pos hlen] at hadd
        cases hadd
        rfl
      · rw [if_neg hlen] at hadd
        cases hadd
        rfl
    rw [hint]
    exact ⟨gfnSocketUpdate (inSocks.map Socket.name)
        (outSocks.map Socket.name) m s,
      List.mem_map.mpr ⟨s, hs2, rfl⟩,
      by rw [gfnSocketUpdate_name, hsn],
      by rw [gfnSocketUpdate_type, hsty]⟩

/-- Closed instance of `C10_add_graph_fn_socket_creation`: registering
a graph function with fresh names `x` (input) and `y` (output) on an
empty component creates `y` as an internal socket of type `in`. -/
theorem C10_witness :
    ∃ c', addGraphFn comp0 ["x"] ["y"] "f" none none none none = .ok c' ∧
      ∃ s ∈ c'.internal_sockets, s.name = "y" ∧ s.type_ = "in" :=
  C10_add_graph_fn_socket_creation comp0 ["x"] ["y"] "f" "y"
    (by decide) (by simp [allSockets, comp0])

/-! ## C2 — `global_scope` consistency under arbitrary assembly order -/

/-- Structural strong induction for the nested inductive `TreeComp`. -/
theorem TreeComp.strongInd {P : TreeComp → Prop}
    (h : ∀ s n g p subs, (∀ c ∈ subs, P c) → P (TreeComp.mk s n g p subs)) :
    ∀ c, P c :=
  fun c =>
    @TreeComp.rec P (fun l => ∀ x ∈ l, P x)
      (fun s n g p subs ih => h s n g p subs ih)
      (fun x hx => absurd hx (List.not_mem_nil x))
      (fun hd tl ph pt x hx => by
        rcases List.mem_cons.mp hx with he | hm
        · exact he ▸ ph
        · exact pt x hm)
      c

/-- The propagation loop is the elementwise map of `propagateScope`. -/
theorem propagateScopeList_eq_map (g : String) (l : List TreeComp) :
    propagateScopeList g l = l.map (propagateScope g) := by
  induction l with
  | nil => rfl
  | cons c rest ih => simp [propagateScopeList, ih]

/-- Pushing a non-empty prefix scope through a subtree makes the whole
subtree consistent with that prefix, whatever its previous state. -/
theorem consistent_propagateScope :
    ∀ (c : TreeComp) (g : String), g ≠ "" → Consistent g (propagateScope g c) :=
  TreeComp.strongInd (fun s n gs p subs ih g hg => by
    simp only [propagateScope]
    rw [if_pos hg]
    have hne : g ++ (if s ≠ "" then "/" ++ s else "") ≠ "" :=
      append_ne_empty_left _ hg
    refine Consistent.mk ?_ ?_
    · unfold expectedScope
      rw [if_neg hg]
      by_cases hs : s = ""
      · rw [if_pos hs, if_neg (by simp [hs]), String.append_empty]
      · rw [if_neg hs, if_pos hs, String.append_assoc]
    · rw [propagateScopeList_eq_map]
      intro x hx
      rcases List.mem_map.mp hx with ⟨y, hy, rfl⟩
      exact ih y hy _ hne)

/-- Pushing the empty prefix (the no-op case of `propagate_scope`)
through an already consistent subtree keeps it consistent. -/
theorem consistent_propagateScope_empty :
    ∀ (c : TreeComp), Consistent "" c → Consistent "" (propagateScope "" c) :=
  TreeComp.strongInd (fun s n gs p subs ih hc => by
    cases hc with
    | mk hgs hsubs =>
      simp only [propagateScope]
      rw [if_neg (by simp)]
      refine Consistent.mk hgs ?_
      rw [propagateScopeList_eq_map]
      intro x hx
      rcases List.mem_map.mp hx with ⟨y, hy, rfl⟩
      by_cases hgs0 : gs = ""
      · subst hgs0
        exact ih y hy (hsubs y hy)
      · exact consistent_propagateScope y gs hgs0)

/-- Shape of a successful `add_component`: the parent keeps its own
fields and gains exactly the scope-propagated, parent-linked child at
the end of its sub-component collection. -/
theorem addComponent_ok_shape {p c r : TreeComp}
    (h : addComponent p c = .ok r) :
    ∃ ps pn pg pp psubs s n g cp subs,
      p = TreeComp.mk ps pn pg pp psubs ∧ c = TreeComp.mk s n g cp subs ∧
      r = TreeComp.mk ps pn pg pp
        (psubs ++ [propagateScope pg (TreeComp.mk s n g (some pn) subs)]) := by
  cases p with
  | mk ps pn pg pp psubs =>
    cases c with
    | mk s n g cp subs =>
      unfold addComponent at h
      split at h
      · exact Except.noConfusion h
      · split at h
        · exact Except.noConfusion h
        · cases h
          exact ⟨ps, pn, pg, pp, psubs, s, n, g, cp, subs, rfl, rfl, rfl⟩

/-- Every tree reachable by `mkComponent` and successful `add_component`
calls is scope-consistent as a root. -/
theorem assembled_consistent {t : TreeComp} (ht : Assembled t) :
    Consistent "" t := by
  induction ht with
  | base h =>
    rename_i scope name? c
    unfold mkComponent at h
    by_cases hm : pyScopeMatch scope
    · rw [if_pos hm] at h
      cases h
      refine Consistent.mk ?_ ?_
      · simp [expectedScope]
      · intro x hx
        exact absurd hx (List.not_mem_nil x)
    · rw [if_neg hm] at h
      exact Except.noConfusion h
  | step hp hc hadd ihp ihc =>
    obtain ⟨ps, pn, pg, pp, psubs, s, n, g, cp, subs, hpe, hce, hre⟩ :=
      addComponent_ok_shape hadd
    subst hpe
    subst hce
    subst hre
    cases ihp with
    | mk hpgs hpsubs =>
      refine Consistent.mk hpgs ?_
      intro x hx
      rcases List.mem_append.mp hx with hold | hnewm
      · exact hpsubs x hold
      · rw [List.mem_singleton.mp hnewm]
        by_cases hpg : pg = ""
        · subst hpg
          apply consistent_propagateScope_empty
          cases ihc with
          | mk hcgs hcsubs => exact Consistent.mk hcgs hcsubs
        · exact consistent_propagateScope _ pg hpg

/-- In a consistent tree, the `global_scope` of the node at `path` is
the left fold of `expectedScope` over the scopes along the path. -/
theorem consistent_getAtPath :
    ∀ (path : List Nat) (c : TreeComp) (g : String) (d : TreeComp),
      Consistent g c → getAtPath c path = some d →
      d.global_scope = List.foldl expectedScope g (pathScopes c path) := by
  intro path
  induction path with
  | nil =>
    intro c g d hc hd
    unfold getAtPath at hd
    cases hd
    cases c with
    | mk s n gs p subs =>
      cases hc with
      | mk hgs hsubs =>
        simp only [pathScopes, TreeComp.scope, TreeComp.global_scope,
          List.foldl_cons, List.foldl_nil]
        exact hgs
  | cons i rest ih =>
    intro c g d hc hd
    cases c with
    | mk s n gs p subs =>
      cases hc with
      | mk hgs hsubs =>
        unfold getAtPath at hd
        cases hgi : (TreeComp.mk s n gs p subs).subs.get? i with
        | none =>
          rw [hgi] at hd
          exact Option.noConfusion hd
        | some ch =>
          rw [hgi] at hd
          have hchm : ch ∈ subs :=
            List.get?_mem (by simpa [TreeComp.subs] using hgi)
          have hch : Consistent gs ch := hsubs ch hchm
          have hrec := ih ch gs d hch hd
          unfold pathScopes
          rw [hgi]
          simp only [TreeComp.scope, List.foldl_cons]
          rw [← hgs]
          exact hrec

/-- Splitting off the first cons of a slash join. -/
theorem joinedBySlash_glue (x y : String) (l : List String) :
    joinedBySlash ((x ++ "/" ++ y) :: l) = x ++ "/" ++ joinedBySlash (y :: l) := by
  cases l with
  | nil => rfl
  | cons z zs => simp [joinedBySlash, String.append_assoc]

/-- Folding `expectedScope` from a non-empty accumulator joins the
accumulator with the non-empty entries of the list. -/
theorem foldl_expected_ne (l : List String) :
    ∀ (a : String), a ≠ "" →
      List.foldl expectedScope a l =
        joinedBySlash (a :: l.filter (fun s => s ≠ "")) := by
  induction l with
  | nil =>
    intro a _
    rfl
  | cons r rs ih =>
    intro a ha
    rw [List.foldl_cons]
    by_cases hr : r = ""
    · subst hr
      have he : expectedScope a "" = a := by simp [expectedScope, ha]
      rw [he, ih a ha, List.filter_cons_of_neg (by simp)]
    · have he : expectedScope a r = a ++ "/" ++ r := by
        simp [expectedScope, ha, hr]
      have hne : a ++ "/" ++ r ≠ "" :=
        append_ne_empty_left r (append_ne_empty_left "/" ha)
      rw [he, ih _ hne, List.filter_cons_of_pos (by simp [hr]),
        joinedBySlash_glue]
      rfl

/-- Folding `expectedScope` from the empty accumulator computes the
slash join of the non-empty entries. -/
theorem foldl_expected_empty (l : List String) :
    List.foldl expectedScope "" l = amendedGlobalScope l := by
  unfold amendedGlobalScope
  induction l with
  | nil => rfl
  | cons s rest ih =>
    rw [List.foldl_cons]
    by_cases hs : s = ""
    · subst hs
      have he : expectedScope "" "" = "" := by simp [expectedScope]
      rw [he, ih, List.filter_cons_of_neg (by simp)]
    · have he : expectedScope "" s = s := by simp [expectedScope]
      rw [he, foldl_expected_ne rest s hs, List.filter_cons_of_pos (by simp [hs])]

/-- C2 (counterexample to the claim's literal join): attaching a child
with the (legal) empty scope under a parent scoped `p` yields
`global_scope = "p"` for the child, while the claim's concatenation of
the path scopes joined by `/` gives `"p/"`. -/
theorem C2_counterexample :
    ∃ t, addComponent (TreeComp.mk "p" "p" "p" none [])
        (TreeComp.mk "" "c" "" none []) = .ok t ∧
      Assembled t ∧
      ∃ d, getAtPath t [0] = some d ∧
        d.global_scope = "p" ∧
        claimGlobalScope (pathScopes t [0]) = "p/" ∧
        d.global_scope ≠ claimGlobalScope (pathScopes t [0]) := by
  refine ⟨TreeComp.mk "p" "p" "p" none [TreeComp.mk "" "c" "p" (some "p") []],
    rfl, ?_, TreeComp.mk "" "c" "p" (some "p") [], rfl, rfl, rfl, by decide⟩
  exact Assembled.step
    (Assembled.base (show mkComponent "p" none =
      .ok (TreeComp.mk "p" "p" "p" none []) from rfl))
    (Assembled.base (show mkComponent "" (some "c") =
      .ok (TreeComp.mk "" "c" "" none []) from rfl))
    rfl

/-- C2 (amended): in any tree assembled by an arbitrary sequence of
`add_component` calls — in particular, independent of the order in
which the subtree was put together — every node's `global_scope`
equals the scopes on the path from the root down to the node joined by
`/` with *empty scope strings left out* of the join. -/
theorem C2_global_scope (t : TreeComp) (ht : Assembled t)
    (path : List Nat) (d : TreeComp) (hd : getAtPath t path = some d) :
    d.global_scope = amendedGlobalScope (pathScopes t path) := by
  rw [consistent_getAtPath path t "" d (assembled_consistent ht) hd]
  exact foldl_expected_empty _

/-- A three-level tree assembled bottom-up: `d` is attached to `c`
first, then `c` (already carrying `d`) to `p`. -/
def treeEx : TreeComp :=
  .mk "p" "p" "p" none
    [.mk "c" "c" "p/c" (some "p") [.mk "d" "d" "p/c/d" (some "c") []]]

/-- Closed instance of `C2_global_scope` on `treeEx` (assembled
grandchild-first, exercising the transitive re-scoping): the
grandchild's `global_scope` is the slash join `p/c/d` of its path. -/
theorem C2_witness :
    (TreeComp.mk "d" "d" "p/c/d" (some "c") []).global_scope
      = amendedGlobalScope (pathScopes treeEx [0, 0]) :=
  C2_global_scope treeEx
    (Assembled.step
      (Assembled.base (show mkComponent "p" none =
        .ok (TreeComp.mk "p" "p" "p" none []) from rfl))
      (Assembled.step
        (Assembled.base (show mkComponent "c" none =
          .ok (TreeComp.mk "c" "c" "c" none []) from rfl))
        (Assembled.base (show mkComponent "d" none =
          .ok (TreeComp.mk "d" "d" "d" none []) from rfl))
        rfl)
      rfl)
    [0, 0] (TreeComp.mk "d" "d" "p/c/d" (some "c") []) rfl

end RLGraph
